import Mathlib

/-!
Verification of the `pbimmutable` record-mutation guard (`src/immutable.go`)
against its natural-language specification.

The file shallowly embeds the two `MakeImmutable` implementations found in
the source: the variadic mixed-argument version (lines 27-124) together with
its helper `isSystemField` (lines 127-134), and the strings-only version
(lines 149-199).  Attribute values are modelled as a tagged union mirroring
the JSON-like values PocketBase records hold, and `reflect.DeepEqual` is
modelled as recursive structural equality (extensional on mappings, since Go
maps are unordered).
-/

namespace PbImmutable

/-- A Go attribute value: the tagged union of primitives, ordered sequences
and key-value mappings that `reflect.DeepEqual` compares. A `vMap` carries an
association list of its entries; Go maps are unordered, so `deepEqual`
compares them extensionally. -/
inductive Value where
  | vNull : Value
  | vBool (b : Bool) : Value
  | vInt (n : Int) : Value
  | vStr (s : String) : Value
  | vList (xs : List Value) : Value
  | vMap (entries : List (String × Value)) : Value

/-- Key lookup in a map's entry list (a Go map access `m[k]`). -/
def lookupEntry : List (String × Value) → String → Option Value
  | [], _ => none
  | (k, v) :: rest, key => if k = key then some v else lookupEntry rest key

mutual

/-- Model of `reflect.DeepEqual` on attribute values: structural on
primitives and ordered sequences, extensional (order-insensitive) on
key-value mappings, exactly as Go defines deep equality of maps
(equal length and deeply equal values at every key). -/
def deepEqual : Value → Value → Bool
  | .vNull, .vNull => true
  | .vBool a, .vBool b => a == b
  | .vInt a, .vInt b => a == b
  | .vStr a, .vStr b => a == b
  | .vList xs, .vList ys => deepEqualList xs ys
  | .vMap a, .vMap b => a.length == b.length && deepEqualEntries a b
  | _, _ => false

/-- Elementwise deep equality of two ordered sequences. -/
def deepEqualList : List Value → List Value → Bool
  | [], [] => true
  | x :: xs, y :: ys => deepEqual x y && deepEqualList xs ys
  | _, _ => false

/-- Every entry of the first map is present in the second with a deeply
equal value. -/
def deepEqualEntries : List (String × Value) → List (String × Value) → Bool
  | [], _ => true
  | (k, v) :: rest, b =>
      (match lookupEntry b k with
       | some w => deepEqual v w
       | none => false) && deepEqualEntries rest b

end

/-- Go map insertion `m[k] = v`: overwrite the entry if the key is present,
append otherwise. -/
def mapInsert : List (String × Value) → String → Value → List (String × Value)
  | [], key, v => [(key, v)]
  | (k, w) :: rest, key, v =>
      if k = key then (k, v) :: rest else (k, w) :: mapInsert rest key v

/-- Build a Go map by inserting the given key-value pairs in order
(`m := map[string]Value{}; for _, p := range ps { m[p.1] = p.2 }`). -/
def mapOfInserts (ps : List (String × Value)) : List (String × Value) :=
  ps.foldl (fun acc p => mapInsert acc p.1 p.2) []

/-- `isSystemField` (src/immutable.go lines 127-134): the fixed set of
PocketBase system field names (`models.SystemFieldId`, `...Created`,
`...Updated`, `...CollectionId`, `...CollectionName`, `...Expand`). -/
def isSystemField (fieldName : String) : Bool :=
  fieldName = "id" || fieldName = "created" || fieldName = "updated" ||
  fieldName = "collectionId" || fieldName = "collectionName" || fieldName = "expand"

/-- A Go `error` value as produced by this package: a plain
`errors.New`/external error, `apis.NewBadRequestError` with `nil` data,
with the violation detail map `{field, reason, recordId}`, or with a wrapped
inner error, and `fmt.Errorf("...: %w", err)` wrapping. -/
inductive GoError where
  | base (msg : String) : GoError
  | badRequest (message : String) : GoError
  | badRequestData (message field reason recordId : String) : GoError
  | badRequestErr (message : String) (inner : GoError) : GoError
  | wrapf (pfx : String) (inner : GoError) : GoError
deriving DecidableEq, Repr

/-- A PocketBase record as the guard observes it: its id, its collection's
id and name, the attribute names its schema declares (in schema order), and
`Record.Get` as a total value lookup. -/
structure GoRecord where
  id : String
  collectionId : String
  collectionName : String
  schemaFields : List String
  get : String → Value

/-- The app handle: `e.App.Dao().FindRecordById(collectionId, recordId)`. -/
structure AppModel where
  findRecordById : String → String → Except GoError GoRecord

/-- The `*core.RecordEvent` passed to the hook: the proposed record state
and the app context, each possibly `nil`. -/
structure RecordEvent where
  record : Option GoRecord
  app : Option AppModel

/-- A follow-up callback `func(e *core.RecordEvent) error`. -/
def Callback := RecordEvent → Option GoError

/-- One variadic argument to `MakeImmutable`: an attribute-name string, a
callback-shaped function, or a value of any other Go type (carrying the
name `%T` would print). -/
inductive Arg where
  | str (s : String) : Arg
  | callback (cb : Callback) : Arg
  | invalid (tyName : String) : Arg

/-- The state `MakeImmutable`'s argument loop leaves behind: the collected
field names, the single retained callback, and the captured parse error
message, if any. -/
structure ParseResult where
  immutableFieldNames : List String
  userCallback : Option Callback
  parseError : Option String

/-- The message of the duplicate-callback configuration error
(src/immutable.go line 38). -/
def dupCallbackMsg : String :=
  "pbimmutable.MakeImmutable: only one callback function can be provided"

/-- The message of the invalid-argument-type configuration error
(src/immutable.go line 43). -/
def invalidArgMsg (tyName : String) (i : Nat) : String :=
  "pbimmutable.MakeImmutable: invalid argument type " ++ tyName ++
    " at position " ++ toString i

/-- The argument loop of the variadic `MakeImmutable` (src/immutable.go
lines 32-49): strings append to the field-name list, the first callback is
retained, a second callback or an argument of any other type sets
`parseError` and breaks out of the loop. -/
def parseLoop : List Arg → Nat → List String → Option Callback → ParseResult
  | [], _, names, cb => ⟨names, cb, none⟩
  | a :: rest, i, names, cb =>
      match a with
      | .str s => parseLoop rest (i + 1) (names ++ [s]) cb
      | .callback k =>
          match cb with
          | some _ => ⟨names, cb, some dupCallbackMsg⟩
          | none => parseLoop rest (i + 1) names (some k)
      | .invalid ty => ⟨names, cb, some (invalidArgMsg ty i)⟩

/-- Parsing a full argument list, starting from the empty state. -/
def parseArgs (args : List Arg) : ParseResult := parseLoop args 0 [] none

/-- The effective field list of the hook (src/immutable.go lines 69-79):
the configured names verbatim when non-empty, otherwise every schema field
that is not a system field, in schema order. -/
def fieldsToCheck (immutableFieldNames : List String) (rec : GoRecord) : List String :=
  if immutableFieldNames.isEmpty then
    rec.schemaFields.filter (fun n => !isSystemField n)
  else immutableFieldNames

/-- The comparison loop (src/immutable.go lines 81-99): the first field
whose original and pending values are not deeply equal, except that a
differing `updated` system field is skipped and checking continues. -/
def firstViolation (originalRecord pending : GoRecord) : List String → Option String
  | [] => none
  | fieldName :: rest =>
      if !deepEqual (originalRecord.get fieldName) (pending.get fieldName) then
        if isSystemField fieldName && fieldName = "updated" then
          firstViolation originalRecord pending rest
        else
          some fieldName
      else
        firstViolation originalRecord pending rest

/-- The immutability-violation error (src/immutable.go lines 90-97). -/
def violationError (fieldName recordId : String) : GoError :=
  .badRequestData ("Attempt to modify immutable field '" ++ fieldName ++ "'.")
    fieldName "immutable" recordId

/-- The fetch-failure message of the variadic version (line 66). -/
def fetchErrMsgVariadic (recordId collectionName : String) : String :=
  "Failed to fetch original record " ++ recordId ++ " from collection " ++
    collectionName ++ " for immutability check."

/-- The fetch-failure message of the strings-only version (line 160). -/
def fetchErrMsgStrings (recordId collectionName : String) : String :=
  "Failed to fetch original record " ++ recordId ++ " from collection " ++
    collectionName ++ "."

/-- The hook's observable behaviour on one event: the error it returns
(`none` = the hook returned `nil`) plus, as trace observables, whether a
fetch was attempted, whether `e.Next()` (the commit) was invoked, and
whether the user callback was invoked. -/
structure EvalOutcome where
  result : Option GoError
  fetchAttempted : Bool
  commitInvoked : Bool
  callbackInvoked : Bool

/-- The hook returned by the variadic `MakeImmutable` (src/immutable.go
lines 52-123), with `e.Next()`'s result supplied as `nextResult` (the
outcome the continuation would produce for this event). -/
def evalHook (p : ParseResult) (nextResult : Option GoError) (e : RecordEvent) :
    EvalOutcome :=
  match p.parseError with
  | some msg =>
      ⟨some (.badRequest ("MakeImmutable setup error: " ++ msg)), false, false, false⟩
  | none =>
    match e.record with
    | none => ⟨some (.badRequest "Record data is missing in the event."), false, false, false⟩
    | some rec =>
      match e.app with
      | none => ⟨some (.badRequest "App context is missing in the event."), false, false, false⟩
      | some app =>
        match app.findRecordById rec.collectionId rec.id with
        | .error err =>
            ⟨some (.badRequestErr (fetchErrMsgVariadic rec.id rec.collectionName) err),
              true, false, false⟩
        | .ok originalRecord =>
          match firstViolation originalRecord rec
              (fieldsToCheck p.immutableFieldNames rec) with
          | some f => ⟨some (violationError f rec.id), true, false, false⟩
          | none =>
            match nextResult with
            | some err =>
                ⟨some (.wrapf
                    "failed to commit record changes via e.Next() after immutability checks"
                    err), true, true, false⟩
            | none =>
              match p.userCallback with
              | some cb =>
                  match cb e with
                  | some cbErr =>
                      ⟨some (.wrapf "user callback failed AFTER record commit" cbErr),
                        true, true, true⟩
                  | none => ⟨none, true, true, true⟩
              | none => ⟨none, true, true, false⟩

/-- The variadic `MakeImmutable` (src/immutable.go lines 27-124): parse the
arguments once, then evaluate the returned hook on an event. -/
def MakeImmutable (args : List Arg) (nextResult : Option GoError)
    (e : RecordEvent) : EvalOutcome :=
  evalHook (parseArgs args) nextResult e

/-- The strings-only `MakeImmutable` (src/immutable.go lines 149-199): same
precondition checks, fetch, field selection and comparison loop, but no
parse error, no commit step and no callback — it returns `nil` as soon as
all checks pass. -/
def MakeImmutableStrings (immutableFieldNames : List String)
    (e : RecordEvent) : Option GoError :=
  match e.record with
  | none => some (.badRequest "Record data is missing in the event.")
  | some rec =>
    match e.app with
    | none => some (.badRequest "App context is missing in the event.")
    | some app =>
      match app.findRecordById rec.collectionId rec.id with
      | .error err =>
          some (.badRequestErr (fetchErrMsgStrings rec.id rec.collectionName) err)
      | .ok originalRecord =>
        match firstViolation originalRecord rec
            (fieldsToCheck immutableFieldNames rec) with
        | some f => some (violationError f rec.id)
        | none => none

/-! ### Well-formed values

Actual Go values never hold a map with duplicate keys; `wfValue` singles out
the `Value` terms that correspond to real Go values. -/

/-- No key occurs twice in a map's entry list. -/
def keysNodup : List (String × Value) → Bool
  | [] => true
  | (k, _) :: rest => !(rest.any (fun p => p.1 == k)) && keysNodup rest

mutual

/-- The value corresponds to a real Go value: every mapping inside it has
pairwise distinct keys. -/
def wfValue : Value → Bool
  | .vNull => true
  | .vBool _ => true
  | .vInt _ => true
  | .vStr _ => true
  | .vList xs => wfList xs
  | .vMap a => keysNodup a && wfEntries a

/-- All elements are well-formed. -/
def wfList : List Value → Bool
  | [] => true
  | x :: xs => wfValue x && wfList xs

/-- All entry values are well-formed. -/
def wfEntries : List (String × Value) → Bool
  | [] => true
  | (_, v) :: rest => wfValue v && wfEntries rest

end

/-- The string arguments of an argument list, in order. -/
def argStrings : List Arg → List String
  | [] => []
  | .str s :: rest => s :: argStrings rest
  | .callback _ :: rest => argStrings rest
  | .invalid _ :: rest => argStrings rest

/-! ### Concrete fixtures

Records, apps and events used to evaluate the verified statements on
concrete inputs (mirroring the scenarios of the repository's test file). -/

/-- Build a `Record.Get` function from an attribute/value table, with the
zero value for absent attributes. -/
def mkGet (pairs : List (String × Value)) : String → Value :=
  fun f => (lookupEntry pairs f).getD Value.vNull

/-- Stored snapshot: `{name: "x", value: 1, status: "active"}`. -/
def origRec1 : GoRecord :=
  ⟨"r1", "c1", "test_items", ["name", "value", "status"],
    mkGet [("name", .vStr "x"), ("value", .vInt 1), ("status", .vStr "active")]⟩

/-- Proposed state changing the protected `name`: `{name: "y", ...}`. -/
def pendRec1 : GoRecord :=
  ⟨"r1", "c1", "test_items", ["name", "value", "status"],
    mkGet [("name", .vStr "y"), ("value", .vInt 1), ("status", .vStr "active")]⟩

/-- An app whose fetch always finds `origRec1`. -/
def app1 : AppModel := ⟨fun _ _ => .ok origRec1⟩

/-- An update event proposing `pendRec1`. -/
def event1 : RecordEvent := ⟨some pendRec1, some app1⟩

/-- An update event proposing the unchanged snapshot. -/
def eventSame : RecordEvent := ⟨some origRec1, some app1⟩

/-- Stored snapshot `{name: "a", value: 1}` (schema `{name, value}`). -/
def origRec2 : GoRecord :=
  ⟨"r2", "c1", "test_items", ["name", "value"],
    mkGet [("name", .vStr "a"), ("value", .vInt 1)]⟩

/-- Proposed state changing only `value`: `{name: "a", value: 2}`. -/
def pendRec2 : GoRecord :=
  ⟨"r2", "c1", "test_items", ["name", "value"],
    mkGet [("name", .vStr "a"), ("value", .vInt 2)]⟩

/-- An app whose fetch always finds `origRec2`. -/
def app2 : AppModel := ⟨fun _ _ => .ok origRec2⟩

/-- An update event proposing `pendRec2`. -/
def event2 : RecordEvent := ⟨some pendRec2, some app2⟩

/-- Stored snapshot whose `created` system attribute is `2024-01-01`. -/
def origRec6 : GoRecord :=
  ⟨"r6", "c1", "test_items", ["name"],
    mkGet [("name", .vStr "a"), ("created", .vStr "2024-01-01")]⟩

/-- Proposed state changing only the `created` system attribute. -/
def pendRec6 : GoRecord :=
  ⟨"r6", "c1", "test_items", ["name"],
    mkGet [("name", .vStr "a"), ("created", .vStr "2025-01-01")]⟩

/-- An app whose fetch always finds `origRec6`. -/
def app6 : AppModel := ⟨fun _ _ => .ok origRec6⟩

/-- An update event proposing `pendRec6`. -/
def event6 : RecordEvent := ⟨some pendRec6, some app6⟩

/-- An app whose fetch always fails with an external storage error. -/
def appFail : AppModel := ⟨fun _ _ => .error (.base "db down")⟩

/-- An update event whose snapshot fetch fails. -/
def eventFetchFail : RecordEvent := ⟨some pendRec1, some appFail⟩

/-- An event carrying neither a record nor an app context. -/
def eventEmpty : RecordEvent := ⟨none, none⟩

/-- A follow-up callback that always fails. -/
def cbFail : Callback := fun _ => some (.base "cb_forced_error")

/-- A follow-up callback that always succeeds. -/
def cbOk : Callback := fun _ => none

/-! ### Basic lemmas about the comparison loop -/

theorem fieldsToCheck_nonempty (names : List String) (rec : GoRecord)
    (h : names ≠ []) : fieldsToCheck names rec = names := by
  cases names with
  | nil => exact absurd rfl h
  | cons a l => rfl

theorem firstViolation_none_iff (o r : GoRecord) (l : List String) :
    firstViolation o r l = none ↔
      ∀ f ∈ l, deepEqual (o.get f) (r.get f) = true ∨ f = "updated" := by
  induction l with
  | nil => simp [firstViolation]
  | cons f rest ih =>
      by_cases hd : deepEqual (o.get f) (r.get f) = true
      · simp [firstViolation, hd, ih]
      · by_cases hu : f = "updated"
        · subst hu
          simp [firstViolation, hd, isSystemField, ih]
        · simp [firstViolation, hd, hu]

theorem firstViolation_some_spec (o r : GoRecord) (l : List String) (f : String)
    (h : firstViolation o r l = some f) :
    f ∈ l ∧ deepEqual (o.get f) (r.get f) = false ∧ f ≠ "updated" := by
  induction l with
  | nil => simp [firstViolation] at h
  | cons g rest ih =>
      by_cases hd : deepEqual (o.get g) (r.get g) = true
      · simp [firstViolation, hd] at h
        rcases ih h with ⟨hm, hdf, hu⟩
        exact ⟨by simp [hm], hdf, hu⟩
      · by_cases hu : g = "updated"
        · subst hu
          simp [firstViolation, Bool.not_eq_true] at h
          simp [hd, isSystemField] at h
          rcases ih h with ⟨hm, hdf, hu'⟩
          exact ⟨by simp [hm], hdf, hu'⟩
        · simp [firstViolation, Bool.not_eq_true] at h
          simp [hd, hu] at h
          subst h
          exact ⟨by simp, by simpa [Bool.not_eq_true] using hd, hu⟩

theorem firstViolation_append_none (o r : GoRecord) (l1 l2 : List String)
    (h : firstViolation o r l1 = none) :
    firstViolation o r (l1 ++ l2) = firstViolation o r l2 := by
  induction l1 with
  | nil => simp
  | cons g rest ih =>
      by_cases hd : deepEqual (o.get g) (r.get g) = true
      · simp [firstViolation, hd] at h ⊢
        exact ih h
      · by_cases hu : g = "updated"
        · subst hu
          simp [firstViolation, Bool.not_eq_true, hd, isSystemField] at h ⊢
          exact ih h
        · simp [firstViolation, Bool.not_eq_true, hd, hu] at h

theorem firstViolation_head_some (o r : GoRecord) (f : String) (rest : List String)
    (hd : deepEqual (o.get f) (r.get f) = false) (hu : f ≠ "updated") :
    firstViolation o r (f :: rest) = some f := by
  simp [firstViolation, hd, hu]

/-! ### Deep equality is reflexive on well-formed values -/

theorem lookupEntry_of_mem :
    ∀ {a : List (String × Value)} {k : String} {v : Value},
      keysNodup a = true → (k, v) ∈ a → lookupEntry a k = some v := by
  intro a
  induction a with
  | nil => intro k v _ hm; simp at hm
  | cons p rest ih =>
      intro k v hnd hm
      obtain ⟨k', v'⟩ := p
      simp [keysNodup] at hnd
      rcases List.mem_cons.mp hm with h | h
      · obtain ⟨hk, hv⟩ := Prod.mk.injEq .. ▸ h
        simp [lookupEntry, hk.symm, hv]
      · by_cases hk : k' = k
        · exfalso
          subst hk
          exact absurd (hnd.1 _ _ h) (by simp)
        · simp [lookupEntry, hk, ih hnd.2 h]

mutual

theorem deepEqual_refl : ∀ v, wfValue v = true → deepEqual v v = true
  | .vNull, _ => rfl
  | .vBool b, _ => by simp [deepEqual]
  | .vInt n, _ => by simp [deepEqual]
  | .vStr s, _ => by simp [deepEqual]
  | .vList xs, h => by
      simpa [deepEqual] using deepEqualList_refl xs (by simpa [wfValue] using h)
  | .vMap a, h => by
      have h' : keysNodup a = true ∧ wfEntries a = true := by
        simpa [wfValue] using h
      have hsub : deepEqualEntries a a = true :=
        deepEqualEntries_sub a a h'.2 (fun k v hm => lookupEntry_of_mem h'.1 hm)
      simp [deepEqual, hsub]

theorem deepEqualList_refl : ∀ xs, wfList xs = true → deepEqualList xs xs = true
  | [], _ => rfl
  | x :: xs, h => by
      have h' : wfValue x = true ∧ wfList xs = true := by simpa [wfList] using h
      simp [deepEqualList, deepEqual_refl x h'.1, deepEqualList_refl xs h'.2]

theorem deepEqualEntries_sub :
    ∀ (a b : List (String × Value)), wfEntries a = true →
      (∀ k v, (k, v) ∈ a → lookupEntry b k = some v) → deepEqualEntries a b = true
  | [], _, _, _ => rfl
  | (k, v) :: rest, b, h, hl => by
      have h' : wfValue v = true ∧ wfEntries rest = true := by
        simpa [wfEntries] using h
      have hk : lookupEntry b k = some v := hl k v (by simp)
      have hrest : deepEqualEntries rest b = true :=
        deepEqualEntries_sub rest b h'.2 (fun k' v' hm => hl k' v' (by simp [hm]))
      simp [deepEqualEntries, hk, deepEqual_refl v h'.1, hrest]

end

/-! ### Go map insertion and permutation invariance -/

theorem mapInsert_fresh :
    ∀ (a : List (String × Value)) (k : String) (v : Value),
      (∀ q ∈ a, q.1 ≠ k) → mapInsert a k v = a ++ [(k, v)] := by
  intro a
  induction a with
  | nil => intro k v _; rfl
  | cons q rest ih =>
      intro k v hfresh
      obtain ⟨k', v'⟩ := q
      have hk : k' ≠ k := hfresh (k', v') (by simp)
      simp [mapInsert, hk, ih k v (fun q hq => hfresh q (by simp [hq]))]

theorem foldl_mapInsert_fresh :
    ∀ (ps acc : List (String × Value)), keysNodup ps = true →
      (∀ p ∈ ps, ∀ q ∈ acc, q.1 ≠ p.1) →
      ps.foldl (fun acc p => mapInsert acc p.1 p.2) acc = acc ++ ps := by
  intro ps
  induction ps with
  | nil => intro acc _ _; simp
  | cons p rest ih =>
      intro acc hnd hdisj
      obtain ⟨k, v⟩ := p
      simp [keysNodup] at hnd
      have hins : mapInsert acc k v = acc ++ [(k, v)] :=
        mapInsert_fresh acc k v (fun q hq => hdisj (k, v) (by simp) q hq)
      have hrec := ih (acc ++ [(k, v)]) hnd.2 (by
        intro p hp q hq
        rcases List.mem_append.mp hq with h | h
        · exact hdisj p (by simp [hp]) q h
        · simp at h
          subst h
          obtain ⟨pk, pv⟩ := p
          simpa using Ne.symm (hnd.1 pk pv hp))
      simp only [List.foldl_cons, hins, hrec]
      simp

theorem mapOfInserts_eq_self (ps : List (String × Value)) (hnd : keysNodup ps = true) :
    mapOfInserts ps = ps := by
  simpa [mapOfInserts] using foldl_mapInsert_fresh ps [] hnd (by simp)

theorem keysNodup_iff_nodup (a : List (String × Value)) :
    keysNodup a = true ↔ (a.map Prod.fst).Nodup := by
  induction a with
  | nil => simp [keysNodup]
  | cons p rest ih =>
      obtain ⟨k, v⟩ := p
      rw [List.map_cons, List.nodup_cons]
      constructor
      · intro h
        simp [keysNodup] at h
        refine ⟨?_, ih.mp h.2⟩
        intro hmem
        rcases List.mem_map.mp hmem with ⟨⟨k', v'⟩, hm, hk⟩
        exact h.1 k' v' hm hk
      · rintro ⟨hnm, hnd⟩
        simp [keysNodup, ih.mpr hnd]
        intro k' v' hm hk
        exact hnm (List.mem_map.mpr ⟨(k', v'), hm, by simp [hk]⟩)

theorem wfEntries_iff (a : List (String × Value)) :
    wfEntries a = true ↔ ∀ p ∈ a, wfValue p.2 = true := by
  induction a with
  | nil => simp [wfEntries]
  | cons p rest ih =>
      obtain ⟨k, v⟩ := p
      simp [wfEntries, ih]

/-! ### Lemmas about the argument-parsing loop -/

theorem parseLoop_ok_names :
    ∀ (args : List Arg) (i : Nat) (names : List String) (cb : Option Callback),
      (parseLoop args i names cb).parseError = none →
      (parseLoop args i names cb).immutableFieldNames = names ++ argStrings args := by
  intro args
  induction args with
  | nil => intro i names cb _; simp [parseLoop, argStrings]
  | cons a rest ih =>
      intro i names cb h
      cases a with
      | str s =>
          simp [parseLoop, argStrings] at h ⊢
          simpa using ih (i + 1) (names ++ [s]) cb h
      | callback k =>
          cases cb with
          | none =>
              simp [parseLoop, argStrings] at h ⊢
              exact ih (i + 1) names (some k) h
          | some k0 => simp [parseLoop] at h
      | invalid ty => simp [parseLoop] at h

theorem parseLoop_halt_extend :
    ∀ (args extra : List Arg) (i : Nat) (names : List String) (cb : Option Callback),
      (parseLoop args i names cb).parseError.isSome →
      parseLoop (args ++ extra) i names cb = parseLoop args i names cb := by
  intro args
  induction args with
  | nil => intro extra i names cb h; simp [parseLoop] at h
  | cons a rest ih =>
      intro extra i names cb h
      cases a with
      | str s =>
          simp [parseLoop] at h ⊢
          exact ih extra (i + 1) (names ++ [s]) cb h
      | callback k =>
          cases cb with
          | none =>
              simp [parseLoop] at h ⊢
              exact ih extra (i + 1) names (some k) h
          | some k0 => simp [parseLoop]
      | invalid ty => simp [parseLoop]

theorem parseLoop_append :
    ∀ (args1 args2 : List Arg) (i : Nat) (names : List String) (cb : Option Callback),
      (parseLoop args1 i names cb).parseError = none →
      parseLoop (args1 ++ args2) i names cb =
        parseLoop args2 (i + args1.length)
          (parseLoop args1 i names cb).immutableFieldNames
          (parseLoop args1 i names cb).userCallback := by
  intro args1
  induction args1 with
  | nil => intro args2 i names cb _; simp [parseLoop]
  | cons a rest ih =>
      intro args2 i names cb h
      cases a with
      | str s =>
          simp [parseLoop] at h ⊢
          have := ih args2 (i + 1) (names ++ [s]) cb h
          simpa [Nat.add_assoc, Nat.add_comm 1 rest.length] using this
      | callback k =>
          cases cb with
          | none =>
              simp [parseLoop] at h ⊢
              have := ih args2 (i + 1) names (some k) h
              simpa [Nat.add_assoc, Nat.add_comm 1 rest.length] using this
          | some k0 => simp [parseLoop] at h
      | invalid ty => simp [parseLoop] at h

/-- Parsing a strings-only argument list collects exactly those strings,
with no callback and no error. -/
theorem parseArgs_strings (names : List String) :
    parseArgs (names.map Arg.str) = ⟨names, none, none⟩ := by
  have gen : ∀ (ns acc : List String) (i : Nat),
      parseLoop (ns.map Arg.str) i acc none = ⟨acc ++ ns, none, none⟩ := by
    intro ns
    induction ns with
    | nil => intro acc i; simp [parseLoop]
    | cons n rest ih =>
        intro acc i
        simp [parseLoop, ih (acc ++ [n]) (i + 1)]
  simpa [parseArgs] using gen names [] 0

/-! ### Reduction and inversion lemmas for the evaluation hook -/

theorem firstViolation_append_some (o r : GoRecord) (l1 l2 : List String)
    (f : String) (h : firstViolation o r l1 = some f) :
    firstViolation o r (l1 ++ l2) = some f := by
  induction l1 with
  | nil => simp [firstViolation] at h
  | cons g rest ih =>
      by_cases hd : deepEqual (o.get g) (r.get g) = true
      · simp [firstViolation, hd] at h ⊢
        exact ih h
      · by_cases hu : g = "updated"
        · subst hu
          simp [firstViolation, hd, isSystemField] at h ⊢
          exact ih h
        · simp [firstViolation, hd, hu] at h ⊢
          exact h

/-- Once the precondition checks and the fetch have succeeded, the hook's
outcome is decided by the comparison loop, then `e.Next()`, then the
callback. -/
theorem evalHook_reduce (names : List String) (cb : Option Callback)
    (nr : Option GoError) (e : RecordEvent) (rec : GoRecord) (app : AppModel)
    (orig : GoRecord) (hrec : e.record = some rec) (happ : e.app = some app)
    (hfetch : app.findRecordById rec.collectionId rec.id = .ok orig) :
    evalHook ⟨names, cb, none⟩ nr e =
      match firstViolation orig rec (fieldsToCheck names rec) with
      | some f => ⟨some (violationError f rec.id), true, false, false⟩
      | none =>
        match nr with
        | some err =>
            ⟨some (.wrapf
                "failed to commit record changes via e.Next() after immutability checks"
                err), true, true, false⟩
        | none =>
          match cb with
          | some k =>
              match k e with
              | some cbErr =>
                  ⟨some (.wrapf "user callback failed AFTER record commit" cbErr),
                    true, true, true⟩
              | none => ⟨none, true, true, true⟩
          | none => ⟨none, true, true, false⟩ := by
  simp only [evalHook, hrec, happ, hfetch]

/-- Only the comparison loop produces an error carrying the structured
violation detail map; inverting such a result recovers the branch. -/
theorem evalHook_violation_inv (p : ParseResult) (nr : Option GoError)
    (e : RecordEvent) (m f rs id : String)
    (h : (evalHook p nr e).result = some (.badRequestData m f rs id)) :
    p.parseError = none ∧
    ∃ rec app orig, e.record = some rec ∧ e.app = some app ∧
      app.findRecordById rec.collectionId rec.id = .ok orig ∧
      firstViolation orig rec (fieldsToCheck p.immutableFieldNames rec) = some f ∧
      rs = "immutable" ∧ id = rec.id := by
  unfold evalHook at h
  split at h
  · simp at h
  next hpe =>
  split at h
  · simp at h
  next rec hrec =>
  split at h
  · simp at h
  next app happ =>
  split at h
  next err hfetch => simp at h
  next orig hfetch =>
  split at h
  next f' hf' =>
    simp [violationError] at h
    exact ⟨hpe, rec, app, orig, hrec, happ, hfetch, h.2.1 ▸ hf', h.2.2.1.symm, h.2.2.2.symm⟩
  next hnone =>
    split at h
    · simp at h
    split at h
    next k hk =>
      split at h <;> simp at h
    next => simp at h

theorem deepEqual_map_perm (ps qs : List (String × Value)) (h : ps.Perm qs)
    (hnd : keysNodup ps = true) (hwf : wfEntries ps = true) :
    deepEqual (.vMap (mapOfInserts ps)) (.vMap (mapOfInserts qs)) = true := by
  have hndq : keysNodup qs = true := by
    rw [keysNodup_iff_nodup] at hnd ⊢
    exact (h.map Prod.fst).nodup_iff.mp hnd
  rw [mapOfInserts_eq_self ps hnd, mapOfInserts_eq_self qs hndq]
  have hlen : ps.length = qs.length := h.length_eq
  have hsub : deepEqualEntries ps qs = true :=
    deepEqualEntries_sub ps qs hwf
      (fun k v hm => lookupEntry_of_mem hndq (h.mem_iff.mp hm))
  simp [deepEqual, hlen, hsub]

/-! ### Claim theorems -/

/-- C1: for every policy with a non-empty protected set and every
evaluation that reaches the comparison loop, an immutability-violation
error is returned iff some protected attribute's snapshot value differs
deep-structurally from its proposed value (`updated` excepted); on a
violation, evaluation stops at the first differing attribute in the order
the names were supplied, commit is not invoked, and the error carries
exactly the offending name, the reason tag `immutable` and the entity's
id; with no differing protected attribute, the commit callback is invoked
regardless of all other attributes' values. -/
theorem claim1_nonempty_policy_violation_iff_commit
    (names : List String) (cb : Option Callback) (nr : Option GoError)
    (e : RecordEvent) (rec : GoRecord) (app : AppModel) (orig : GoRecord)
    (hne : names ≠ [])
    (hrec : e.record = some rec) (happ : e.app = some app)
    (hfetch : app.findRecordById rec.collectionId rec.id = .ok orig) :
    ((∃ f, (evalHook ⟨names, cb, none⟩ nr e).result = some (violationError f rec.id)) ↔
        ∃ f ∈ names, f ≠ "updated" ∧ deepEqual (orig.get f) (rec.get f) = false) ∧
    (∀ l1 f l2, names = l1 ++ f :: l2 →
        (∀ g ∈ l1, deepEqual (orig.get g) (rec.get g) = true ∨ g = "updated") →
        deepEqual (orig.get f) (rec.get f) = false → f ≠ "updated" →
        (evalHook ⟨names, cb, none⟩ nr e).result = some (violationError f rec.id) ∧
          (evalHook ⟨names, cb, none⟩ nr e).commitInvoked = false) ∧
    ((∀ f ∈ names, deepEqual (orig.get f) (rec.get f) = true ∨ f = "updated") →
        (evalHook ⟨names, cb, none⟩ nr e).commitInvoked = true) := by
  have hred := evalHook_reduce names cb nr e rec app orig hrec happ hfetch
  rw [fieldsToCheck_nonempty names rec hne] at hred
  refine ⟨⟨?_, ?_⟩, ?_, ?_⟩
  · rintro ⟨f, hf⟩
    rw [hred] at hf
    cases hfv : firstViolation orig rec names with
    | none =>
        rw [hfv] at hf
        rcases nr with _ | err
        · rcases cb with _ | k
          · simp at hf
          · rcases hke : k e with _ | cbErr <;> simp [hke, violationError] at hf
        · simp [violationError] at hf
    | some f' =>
        rw [hfv] at hf
        have hspec := firstViolation_some_spec orig rec names f' hfv
        exact ⟨f', hspec.1, hspec.2.2, hspec.2.1⟩
  · rintro ⟨f, hmem, hu, hdiff⟩
    cases hfv : firstViolation orig rec names with
    | none =>
        exfalso
        rcases (firstViolation_none_iff orig rec names).mp hfv f hmem with h | h
        · rw [h] at hdiff; cases hdiff
        · exact hu h
    | some f' => exact ⟨f', by rw [hred, hfv]⟩
  · intro l1 f l2 hsplit hpass hdiff hu
    have hl1 : firstViolation orig rec l1 = none :=
      (firstViolation_none_iff orig rec l1).mpr hpass
    have hfv : firstViolation orig rec names = some f := by
      rw [hsplit, firstViolation_append_none orig rec l1 (f :: l2) hl1,
        firstViolation_head_some orig rec f l2 hdiff hu]
    rw [hred, hfv]
    exact ⟨rfl, rfl⟩
  · intro hall
    have hfv : firstViolation orig rec names = none :=
      (firstViolation_none_iff orig rec names).mpr hall
    rw [hred, hfv]
    rcases nr with _ | err
    · rcases cb with _ | k
      · rfl
      · rcases hke : k e with _ | cbErr <;> simp [hke]
    · rfl

/-- C1 witness: the protected `name` differs between `origRec1` and
`pendRec1`, so evaluating the guard on `event1` returns the violation
naming `name` and does not commit. -/
theorem claim1_witness :
    (evalHook ⟨["name"], none, none⟩ none event1).result
        = some (violationError "name" pendRec1.id) ∧
      (evalHook ⟨["name"], none, none⟩ none event1).commitInvoked = false :=
  (claim1_nonempty_policy_violation_iff_commit ["name"] none none event1
      pendRec1 app1 origRec1 (by decide) rfl rfl rfl).2.1
    [] "name" [] rfl (by simp) (by decide) (by decide)

/-- C2: for every policy with an empty protected set, the effective list
checked is exactly the schema-declared attributes minus the system-field
set, in schema order; if any attribute in that list differs between
snapshot and proposed state, evaluation returns the violation naming
exactly the first differing attribute in schema order, even when several
differ. -/
theorem claim2_empty_policy_schema_fields
    (cb : Option Callback) (nr : Option GoError)
    (e : RecordEvent) (rec : GoRecord) (app : AppModel) (orig : GoRecord)
    (hrec : e.record = some rec) (happ : e.app = some app)
    (hfetch : app.findRecordById rec.collectionId rec.id = .ok orig) :
    (fieldsToCheck [] rec = rec.schemaFields.filter (fun n => !isSystemField n)) ∧
    ((∃ f, (evalHook ⟨[], cb, none⟩ nr e).result = some (violationError f rec.id)) ↔
        ∃ f ∈ rec.schemaFields.filter (fun n => !isSystemField n),
          deepEqual (orig.get f) (rec.get f) = false) ∧
    (∀ l1 f l2, rec.schemaFields.filter (fun n => !isSystemField n) = l1 ++ f :: l2 →
        (∀ g ∈ l1, deepEqual (orig.get g) (rec.get g) = true) →
        deepEqual (orig.get f) (rec.get f) = false →
        (evalHook ⟨[], cb, none⟩ nr e).result = some (violationError f rec.id)) := by
  have hred := evalHook_reduce [] cb nr e rec app orig hrec happ hfetch
  have hfc : fieldsToCheck [] rec = rec.schemaFields.filter (fun n => !isSystemField n) := rfl
  rw [hfc] at hred
  have hnotu : ∀ f ∈ rec.schemaFields.filter (fun n => !isSystemField n),
      f ≠ "updated" := by
    intro f hf hu
    have := (List.mem_filter.mp hf).2
    rw [hu] at this
    simp [isSystemField] at this
  refine ⟨hfc, ⟨?_, ?_⟩, ?_⟩
  · rintro ⟨f, hf⟩
    rw [hred] at hf
    cases hfv : firstViolation orig rec
        (rec.schemaFields.filter (fun n => !isSystemField n)) with
    | none =>
        rw [hfv] at hf
        rcases nr with _ | err
        · rcases cb with _ | k
          · simp at hf
          · rcases hke : k e with _ | cbErr <;> simp [hke, violationError] at hf
        · simp [violationError] at hf
    | some f' =>
        rw [hfv] at hf
        have hspec := firstViolation_some_spec orig rec _ f' hfv
        exact ⟨f', hspec.1, hspec.2.1⟩
  · rintro ⟨f, hmem, hdiff⟩
    cases hfv : firstViolation orig rec
        (rec.schemaFields.filter (fun n => !isSystemField n)) with
    | none =>
        exfalso
        rcases (firstViolation_none_iff orig rec _).mp hfv f hmem with h | h
        · rw [h] at hdiff; cases hdiff
        · exact hnotu f hmem h
    | some f' => exact ⟨f', by rw [hred, hfv]⟩
  · intro l1 f l2 hsplit hpass hdiff
    have hfmem : f ∈ rec.schemaFields.filter (fun n => !isSystemField n) := by
      rw [hsplit]; simp
    have hl1 : firstViolation orig rec l1 = none :=
      (firstViolation_none_iff orig rec l1).mpr (fun g hg => Or.inl (hpass g hg))
    have hfv : firstViolation orig rec
        (rec.schemaFields.filter (fun n => !isSystemField n)) = some f := by
      rw [hsplit, firstViolation_append_none orig rec l1 (f :: l2) hl1,
        firstViolation_head_some orig rec f l2 hdiff (hnotu f hfmem)]
    rw [hred, hfv]

/-- C2 witness: with an empty protected set, schema `{name, value}` and a
proposed state changing only `value`, evaluation reports the violation on
`value` (the first differing schema attribute). -/
theorem claim2_witness :
    (evalHook ⟨[], none, none⟩ none event2).result
        = some (violationError "value" pendRec2.id) :=
  (claim2_empty_policy_schema_fields none none event2 pendRec2 app2 origRec2
      rfl rfl rfl).2.2
    ["name"] "value" [] (by decide) (by decide) (by decide)

/-- C3: for every policy that includes a follow-up callback, the callback
is invoked iff the commit (`e.Next()`) was invoked and returned success;
when commit fails its error is propagated wrapped as a commit-stage
failure and the callback does not run; when commit succeeds and the
callback fails, that error is propagated wrapped as a post-commit failure
(the commit stays invoked); when both succeed the evaluation returns no
error. -/
theorem claim3_followup_iff_commit_success
    (names : List String) (k : Callback) (nr : Option GoError) (e : RecordEvent) :
    ((evalHook ⟨names, some k, none⟩ nr e).callbackInvoked = true ↔
        ((evalHook ⟨names, some k, none⟩ nr e).commitInvoked = true ∧ nr = none)) ∧
    (∀ err, nr = some err →
        (evalHook ⟨names, some k, none⟩ nr e).commitInvoked = true →
        (evalHook ⟨names, some k, none⟩ nr e).result =
            some (.wrapf
              "failed to commit record changes via e.Next() after immutability checks"
              err) ∧
          (evalHook ⟨names, some k, none⟩ nr e).callbackInvoked = false) ∧
    (∀ cbErr, (evalHook ⟨names, some k, none⟩ nr e).commitInvoked = true →
        nr = none → k e = some cbErr →
        (evalHook ⟨names, some k, none⟩ nr e).result =
            some (.wrapf "user callback failed AFTER record commit" cbErr) ∧
          (evalHook ⟨names, some k, none⟩ nr e).commitInvoked = true) ∧
    ((evalHook ⟨names, some k, none⟩ nr e).commitInvoked = true →
        nr = none → k e = none →
        (evalHook ⟨names, some k, none⟩ nr e).result = none) := by
  rcases he : e.record with _ | rec
  · simp [evalHook, he]
  rcases ha : e.app with _ | app
  · simp [evalHook, he, ha]
  rcases hf : app.findRecordById rec.collectionId rec.id with err | orig
  · simp [evalHook, he, ha, hf]
  rcases hv : firstViolation orig rec (fieldsToCheck names rec) with _ | f
  · rcases nr with _ | err
    · rcases hke : k e with _ | cbErr
      · simp [evalHook, he, ha, hf, hv, hke]
      · simp [evalHook, he, ha, hf, hv, hke]
    · simp [evalHook, he, ha, hf, hv]
  · simp [evalHook, he, ha, hf, hv]

/-- C3 witness: on an event whose proposed state equals the snapshot, with
a failing follow-up callback and a successful commit, the hook commits and
returns the callback's error wrapped as a post-commit failure. -/
theorem claim3_witness :
    (evalHook ⟨["name"], some cbFail, none⟩ none eventSame).result =
        some (.wrapf "user callback failed AFTER record commit" (.base "cb_forced_error")) ∧
      (evalHook ⟨["name"], some cbFail, none⟩ none eventSame).commitInvoked = true :=
  (claim3_followup_iff_commit_success ["name"] cbFail none eventSame).2.2.1
    (.base "cb_forced_error") rfl rfl rfl

/-- C4 counterexample: an argument list containing two callback-shaped
arguments preceded by an invalid-typed argument halts parsing at the
invalid argument (position 0), not at the second callback, and the guard
returns the invalid-argument configuration error, not the
only-one-callback one. -/
theorem claim4_counterexample :
    (parseArgs [Arg.invalid "int", Arg.callback cbOk, Arg.callback cbOk]).parseError
        = some (invalidArgMsg "int" 0) ∧
      invalidArgMsg "int" 0 ≠ dupCallbackMsg ∧
      evalHook (parseArgs [Arg.invalid "int", Arg.callback cbOk, Arg.callback cbOk])
          none eventEmpty =
        ⟨some (.badRequest ("MakeImmutable setup error: " ++ invalidArgMsg "int" 0)),
          false, false, false⟩ :=
  ⟨rfl, by decide, rfl⟩

/-- C4 (amended): for every argument list whose prefix before a second
callback-shaped argument parses without configuration error (attribute
strings and exactly one earlier callback), construction succeeds (parsing
is total), parsing halts at the second callback with the configuration
error "only one callback function can be provided" — the collected names
are exactly the strings seen before it and later arguments are ignored —
and every invocation of the resulting guard returns that error before any
fetch or commit is attempted. -/
theorem claim4_two_callbacks_config_error
    (l1 l2 : List Arg) (k1 : Callback) (k2 : Callback)
    (hok : (parseArgs l1).parseError = none)
    (hcb : (parseArgs l1).userCallback = some k1) :
    parseArgs (l1 ++ Arg.callback k2 :: l2) =
        ⟨argStrings l1, some k1, some dupCallbackMsg⟩ ∧
      ∀ nr e, evalHook (parseArgs (l1 ++ Arg.callback k2 :: l2)) nr e =
        ⟨some (.badRequest ("MakeImmutable setup error: " ++ dupCallbackMsg)),
          false, false, false⟩ := by
  have hnames : (parseArgs l1).immutableFieldNames = argStrings l1 := by
    simpa using parseLoop_ok_names l1 0 [] none hok
  have hsplit : parseArgs (l1 ++ Arg.callback k2 :: l2) =
      parseLoop (Arg.callback k2 :: l2) (0 + l1.length)
        (parseArgs l1).immutableFieldNames (parseArgs l1).userCallback := by
    simpa [parseArgs] using
      parseLoop_append l1 (Arg.callback k2 :: l2) 0 [] none hok
  have hp : parseArgs (l1 ++ Arg.callback k2 :: l2) =
      ⟨argStrings l1, some k1, some dupCallbackMsg⟩ := by
    rw [hsplit, hcb, hnames]
    simp [parseLoop]
  refine ⟨hp, ?_⟩
  intro nr e
  rw [hp]
  rfl

/-- C4 witness: `["f1", action, action]` parses to the deferred
only-one-callback error with names `["f1"]`, and any invocation returns
that configuration error without attempting a fetch. -/
theorem claim4_witness :
    parseArgs ([Arg.str "f1", Arg.callback cbOk] ++ Arg.callback cbOk :: []) =
        ⟨argStrings [Arg.str "f1", Arg.callback cbOk], some cbOk, some dupCallbackMsg⟩ ∧
      ∀ nr e, evalHook (parseArgs ([Arg.str "f1", Arg.callback cbOk] ++
            Arg.callback cbOk :: [])) nr e =
        ⟨some (.badRequest ("MakeImmutable setup error: " ++ dupCallbackMsg)),
          false, false, false⟩ :=
  claim4_two_callbacks_config_error [Arg.str "f1", Arg.callback cbOk] [] cbOk cbOk
    rfl rfl

/-- C5: a deep-structural mismatch on the `updated` system attribute never
produces an immutability violation: the comparison loop continues with the
next attribute whatever `updated`'s values are, and no evaluation ever
returns a violation naming `updated`. -/
theorem claim5_updated_never_violates :
    (∀ (o r : GoRecord) (rest : List String),
        firstViolation o r ("updated" :: rest) = firstViolation o r rest) ∧
    (∀ (p : ParseResult) (nr : Option GoError) (e : RecordEvent) (m f rs id : String),
        (evalHook p nr e).result = some (.badRequestData m f rs id) →
        f ≠ "updated") := by
  constructor
  · intro o r rest
    by_cases hd : deepEqual (o.get "updated") (r.get "updated") = true
    · simp [firstViolation, hd]
    · simp [firstViolation, hd, isSystemField]
  · intro p nr e m f rs id h
    obtain ⟨-, rec, app, orig, -, -, -, hfv, -, -⟩ :=
      evalHook_violation_inv p nr e m f rs id h
    exact (firstViolation_some_spec orig rec _ f hfv).2.2

/-- C5 witness: the violation raised on `event1` names `name`, and by C5
that name cannot be `updated`. -/
theorem claim5_witness :
    (evalHook ⟨["name"], none, none⟩ none event1).result =
        some (.badRequestData "Attempt to modify immutable field 'name'."
          "name" "immutable" "r1") ∧
      ("name" : String) ≠ "updated" :=
  ⟨rfl, claim5_updated_never_violates.2 ⟨["name"], none, none⟩ none event1
    "Attempt to modify immutable field 'name'." "name" "immutable" "r1" rfl⟩

/-- C6 counterexample: the `created` system attribute, supplied explicitly
in the protected set, does produce an immutability violation when its
value differs — refuting "a value difference confined to a system
attribute never produces an immutability violation ... including when a
system attribute name is supplied explicitly in the protected set". -/
theorem claim6_counterexample :
    isSystemField "created" = true ∧
      (evalHook ⟨["created"], none, none⟩ none event6).result
        = some (violationError "created" "r6") :=
  ⟨rfl, rfl⟩

/-- C6 (amended): system attributes are excluded from the default
all-attributes list, and the modification timestamp `updated` never
produces a violation; but any other system attribute is compared like an
ordinary attribute when its name is supplied explicitly in the protected
set: a violation can name a system attribute only if that name was
supplied explicitly, and can never name `updated`. -/
theorem claim6_system_fields_amended
    (p : ParseResult) (nr : Option GoError) (e : RecordEvent) (m f rs id : String)
    (h : (evalHook p nr e).result = some (.badRequestData m f rs id)) :
    f ≠ "updated" ∧ (isSystemField f = true → f ∈ p.immutableFieldNames) := by
  obtain ⟨-, rec, app, orig, -, -, -, hfv, -, -⟩ :=
    evalHook_violation_inv p nr e m f rs id h
  have hspec := firstViolation_some_spec orig rec _ f hfv
  refine ⟨hspec.2.2, ?_⟩
  intro hsys
  rcases hnames : p.immutableFieldNames with _ | ⟨n, ns⟩
  · exfalso
    have hf : f ∈ fieldsToCheck [] rec := hnames ▸ hspec.1
    simp [fieldsToCheck, List.mem_filter] at hf
    rw [hsys] at hf
    exact absurd hf.2 (by decide)
  · have hmem := hspec.1
    rw [hnames, fieldsToCheck_nonempty _ _ (by simp)] at hmem
    exact hmem

/-- C6 witness: inverting the violation of the C6 counterexample shows the
offending system attribute `created` was explicitly protected. -/
theorem claim6_witness :
    ("created" : String) ≠ "updated" ∧
      (isSystemField "created" = true →
        "created" ∈ (ParseResult.mk ["created"] none none).immutableFieldNames) :=
  claim6_system_fields_amended ⟨["created"], none, none⟩ none event6
    "Attempt to modify immutable field 'created'." "created" "immutable" "r6" rfl

/-- C7 counterexample: a guard built from an invalid argument and invoked
on an event with no proposed state returns the deferred configuration
error, not the precondition error — the configuration-error check runs
first, refuting the claimed ordering. -/
theorem claim7_counterexample :
    MakeImmutable [Arg.invalid "int"] none eventEmpty =
        ⟨some (.badRequest ("MakeImmutable setup error: " ++ invalidArgMsg "int" 0)),
          false, false, false⟩ ∧
      GoError.badRequest ("MakeImmutable setup error: " ++ invalidArgMsg "int" 0) ≠
        GoError.badRequest "Record data is missing in the event." :=
  ⟨rfl, by decide⟩

/-- C7 (amended): the guard checks the deferred configuration error first
and the precondition (proposed state present, then app context) second;
both fail before any fetch or commit, with distinct errors — in
particular, a guard built from invalid arguments and invoked on an event
whose proposed state is missing returns the configuration error, not the
precondition error. -/
theorem claim7_config_before_precondition :
    (∀ (p : ParseResult) (nr : Option GoError) (e : RecordEvent) (m : String),
        p.parseError = some m →
        evalHook p nr e =
          ⟨some (.badRequest ("MakeImmutable setup error: " ++ m)),
            false, false, false⟩) ∧
    (∀ (p : ParseResult) (nr : Option GoError) (e : RecordEvent),
        p.parseError = none → e.record = none →
        evalHook p nr e =
          ⟨some (.badRequest "Record data is missing in the event."),
            false, false, false⟩) ∧
    (∀ m : String,
        GoError.badRequest ("MakeImmutable setup error: " ++ m) ≠
          GoError.badRequest "Record data is missing in the event.") := by
  refine ⟨?_, ?_, ?_⟩
  · intro p nr e m hpe
    simp [evalHook, hpe]
  · intro p nr e hpe hrec
    simp [evalHook, hpe, hrec]
  · intro m h
    injection h with hmsg
    have h2 := congrArg String.data hmsg
    rw [String.data_append] at h2
    have h3 : ('M' :: "akeImmutable setup error: ".data) ++ m.data =
        'R' :: "ecord data is missing in the event.".data := h2
    rw [List.cons_append] at h3
    injection h3 with hc _
    exact absurd hc (by decide)

/-- C7 witness: instantiating the amended ordering on the guard built from
`[123]` (an invalid argument) and the record-less event. -/
theorem claim7_witness :
    evalHook ⟨[], none, some (invalidArgMsg "int" 0)⟩ none eventEmpty =
        ⟨some (.badRequest ("MakeImmutable setup error: " ++ invalidArgMsg "int" 0)),
          false, false, false⟩ ∧
      GoError.badRequest ("MakeImmutable setup error: " ++ invalidArgMsg "int" 0) ≠
        GoError.badRequest "Record data is missing in the event." :=
  ⟨claim7_config_before_precondition.1 ⟨[], none, some (invalidArgMsg "int" 0)⟩
      none eventEmpty (invalidArgMsg "int" 0) rfl,
    claim7_config_before_precondition.2.2 (invalidArgMsg "int" 0)⟩

/-- C8: the guard's comparison is deep structural equality over composite
values: a sequence equals any reconstruction with equal elements in equal
order (deep equality is reflexive on well-formed values), the spec's
`[1,2,3]` example holds, reordered elements compare unequal, and a mapping
built by inserting the same key-value pairs in any order compares equal —
not shallow identity comparison. -/
theorem claim8_deep_structural_equality :
    (∀ v : Value, wfValue v = true → deepEqual v v = true) ∧
    (deepEqual (.vList [.vInt 1, .vInt 2, .vInt 3])
        (.vList [.vInt 1, .vInt 2, .vInt 3]) = true) ∧
    (deepEqual (.vList [.vInt 1, .vInt 2, .vInt 3])
        (.vList [.vInt 3, .vInt 2, .vInt 1]) = false) ∧
    (∀ ps qs : List (String × Value), ps.Perm qs →
        keysNodup ps = true → wfEntries ps = true →
        deepEqual (.vMap (mapOfInserts ps)) (.vMap (mapOfInserts qs)) = true) :=
  ⟨deepEqual_refl, by decide, by decide, deepEqual_map_perm⟩

/-- C8 witness: deep equality on a concrete well-formed nested value, and
on a concrete two-entry mapping inserted in swapped orders. -/
theorem claim8_witness :
    deepEqual (.vMap [("a", .vInt 1), ("b", .vList [.vInt 2])])
        (.vMap [("a", .vInt 1), ("b", .vList [.vInt 2])]) = true ∧
      deepEqual
        (.vMap (mapOfInserts [("a", .vInt 1), ("b", .vInt 2)]))
        (.vMap (mapOfInserts [("b", .vInt 2), ("a", .vInt 1)])) = true :=
  ⟨claim8_deep_structural_equality.1
      (.vMap [("a", .vInt 1), ("b", .vList [.vInt 2])]) (by decide),
    claim8_deep_structural_equality.2.2.2
      [("a", .vInt 1), ("b", .vInt 2)] [("b", .vInt 2), ("a", .vInt 1)]
      (List.Perm.swap _ _ _) (by decide) (by decide)⟩

theorem mem_argStrings (args : List Arg) (s : String) (h : Arg.str s ∈ args) :
    s ∈ argStrings args := by
  induction args with
  | nil => simp at h
  | cons a rest ih =>
      cases a with
      | str t =>
          rcases List.mem_cons.mp h with h' | h'
          · injection h' with h''
            simp [argStrings, h'']
          · simp [argStrings, ih h']
      | callback k =>
          rcases List.mem_cons.mp h with h' | h'
          · cases h'
          · simp [argStrings, ih h']
      | invalid ty =>
          rcases List.mem_cons.mp h with h' | h'
          · cases h'
          · simp [argStrings, ih h']

theorem evalHook_dup_append (names : List String) (s : String)
    (cb : Option Callback) (nr : Option GoError) (e : RecordEvent)
    (hmem : s ∈ names) :
    evalHook ⟨names ++ [s], cb, none⟩ nr e = evalHook ⟨names, cb, none⟩ nr e := by
  rcases he : e.record with _ | rec
  · simp [evalHook, he]
  rcases ha : e.app with _ | app
  · simp [evalHook, he, ha]
  rcases hf : app.findRecordById rec.collectionId rec.id with err | orig
  · simp [evalHook, he, ha, hf]
  have hne : names ≠ [] := by rintro rfl; simp at hmem
  have hfc1 : fieldsToCheck (names ++ [s]) rec = names ++ [s] :=
    fieldsToCheck_nonempty _ _ (by simp)
  have hfc2 : fieldsToCheck names rec = names := fieldsToCheck_nonempty _ _ hne
  have hfv : firstViolation orig rec (names ++ [s]) = firstViolation orig rec names := by
    cases hv : firstViolation orig rec names with
    | some f => exact firstViolation_append_some _ _ _ _ _ hv
    | none =>
        rw [firstViolation_append_none _ _ _ _ hv]
        rw [firstViolation_none_iff] at hv ⊢
        intro g hg
        rw [List.mem_singleton] at hg
        subst hg
        exact hv _ hmem
  simp only [evalHook, he, ha, hf, hfc1, hfc2, hfv]

/-- C9: duplicate attribute-name strings are no-ops: appending a string
that already appears among the arguments yields a guard extensionally
equal to the original — the same outcome (decision, error, commit and
callback behaviour) on every event and commit result. -/
theorem claim9_duplicate_names_noop (args : List Arg) (s : String)
    (hmem : Arg.str s ∈ args) (nr : Option GoError) (e : RecordEvent) :
    MakeImmutable (args ++ [Arg.str s]) nr e = MakeImmutable args nr e := by
  unfold MakeImmutable
  rcases hp : parseArgs args with ⟨names, cb, pe⟩
  rcases pe with _ | m
  · -- the original arguments parse cleanly
    have hpe : (parseLoop args 0 [] none).parseError = none := by
      have : parseArgs args = parseLoop args 0 [] none := rfl
      rw [this] at hp
      rw [hp]
    have hsplit := parseLoop_append args [Arg.str s] 0 [] none hpe
    have hnames : (parseLoop args 0 [] none).immutableFieldNames = argStrings args := by
      simpa using parseLoop_ok_names args 0 [] none hpe
    have hargs : parseArgs (args ++ [Arg.str s]) =
        ⟨names ++ [s], cb, none⟩ := by
      show parseLoop (args ++ [Arg.str s]) 0 [] none = _
      rw [hsplit]
      have hl : parseLoop args 0 [] none = ⟨names, cb, none⟩ := hp
      rw [hl]
      simp [parseLoop]
    rw [hargs]
    have hsmem : s ∈ names := by
      have : names = argStrings args := by
        have hl : parseLoop args 0 [] none = ⟨names, cb, none⟩ := hp
        rw [hl] at hnames
        simpa using hnames
      rw [this]
      exact mem_argStrings args s hmem
    exact evalHook_dup_append names s cb nr e hsmem
  · -- parsing already failed: the appended argument is never reached
    have hpe : (parseLoop args 0 [] none).parseError.isSome := by
      have hl : parseLoop args 0 [] none = ⟨names, cb, some m⟩ := hp
      rw [hl]
      rfl
    have hext := parseLoop_halt_extend args [Arg.str s] 0 [] none hpe
    have hargs2 : parseArgs (args ++ [Arg.str s]) = ⟨names, cb, some m⟩ := by
      show parseLoop (args ++ [Arg.str s]) 0 [] none = _
      rw [hext]
      exact hp
    rw [hargs2]

/-- C9 witness: appending the already-present name `name` leaves the
guard's outcome on `event1` unchanged. -/
theorem claim9_witness :
    MakeImmutable ([Arg.str "name"] ++ [Arg.str "name"]) none event1 =
      MakeImmutable [Arg.str "name"] none event1 :=
  claim9_duplicate_names_noop [Arg.str "name"] "name" (by simp) none event1

/-- C10 counterexample: on a failing fetch the two implementations do not
return the same error — the variadic version's message carries the extra
" for immutability check." suffix — refuting "the other returns the same
error" for fetch errors. -/
theorem claim10_counterexample :
    MakeImmutableStrings ["name"] eventFetchFail
        = some (.badRequestErr (fetchErrMsgStrings "r1" "test_items") (.base "db down")) ∧
      (MakeImmutable [Arg.str "name"] none eventFetchFail).result
        = some (.badRequestErr (fetchErrMsgVariadic "r1" "test_items") (.base "db down")) ∧
      GoError.badRequestErr (fetchErrMsgStrings "r1" "test_items") (.base "db down") ≠
        GoError.badRequestErr (fetchErrMsgVariadic "r1" "test_items") (.base "db down") :=
  ⟨rfl, rfl, by decide⟩

/-- C10 (amended): for every strings-only argument list and every event,
the two implementations agree on the deny decision: they return identical
precondition and immutability-violation errors, and fetch failures occur
in exactly the same cases with the same underlying error but textually
different messages (the variadic one appends " for immutability check.");
the strings-only version returns success exactly when the variadic version
passes all checks and proceeds to commit. -/
theorem claim10_variadic_strings_agree
    (names : List String) (nr : Option GoError) (e : RecordEvent) :
    (MakeImmutableStrings names e = none ↔
        (MakeImmutable (names.map Arg.str) nr e).commitInvoked = true) ∧
    (∀ msg, MakeImmutableStrings names e = some (.badRequest msg) ↔
        (MakeImmutable (names.map Arg.str) nr e).result = some (.badRequest msg)) ∧
    (∀ m f rs id,
        MakeImmutableStrings names e = some (.badRequestData m f rs id) ↔
        (MakeImmutable (names.map Arg.str) nr e).result
          = some (.badRequestData m f rs id)) ∧
    (∀ err (rec : GoRecord), e.record = some rec →
        (MakeImmutableStrings names e
            = some (.badRequestErr (fetchErrMsgStrings rec.id rec.collectionName) err) ↔
          (MakeImmutable (names.map Arg.str) nr e).result
            = some (.badRequestErr (fetchErrMsgVariadic rec.id rec.collectionName) err))) := by
  unfold MakeImmutable
  rw [parseArgs_strings names]
  rcases he : e.record with _ | rec0
  · refine ⟨by simp [MakeImmutableStrings, evalHook, he], ?_, ?_, ?_⟩
    · intro msg
      simp [MakeImmutableStrings, evalHook, he]
    · intro m f rs id
      simp [MakeImmutableStrings, evalHook, he]
    · intro err rec hrec
      cases hrec
  rcases ha : e.app with _ | app
  · refine ⟨by simp [MakeImmutableStrings, evalHook, he, ha], ?_, ?_, ?_⟩
    · intro msg
      simp [MakeImmutableStrings, evalHook, he, ha]
    · intro m f rs id
      simp [MakeImmutableStrings, evalHook, he, ha]
    · intro err rec hrec
      have hr : rec0 = rec := by injection hrec
      subst hr
      simp [MakeImmutableStrings, evalHook, he, ha]
  rcases hf : app.findRecordById rec0.collectionId rec0.id with err0 | orig
  · refine ⟨by simp [MakeImmutableStrings, evalHook, he, ha, hf], ?_, ?_, ?_⟩
    · intro msg
      simp [MakeImmutableStrings, evalHook, he, ha, hf]
    · intro m f rs id
      simp [MakeImmutableStrings, evalHook, he, ha, hf]
    · intro err rec hrec
      have hr : rec0 = rec := by injection hrec
      subst hr
      simp [MakeImmutableStrings, evalHook, he, ha, hf]
  rcases hv : firstViolation orig rec0 (fieldsToCheck names rec0) with _ | f0
  · rcases nr with _ | err1
    · refine ⟨by simp [MakeImmutableStrings, evalHook, he, ha, hf, hv], ?_, ?_, ?_⟩
      · intro msg
        simp [MakeImmutableStrings, evalHook, he, ha, hf, hv]
      · intro m f rs id
        simp [MakeImmutableStrings, evalHook, he, ha, hf, hv]
      · intro err rec hrec
        have hr : rec0 = rec := by injection hrec
        subst hr
        simp [MakeImmutableStrings, evalHook, he, ha, hf, hv]
    · refine ⟨by simp [MakeImmutableStrings, evalHook, he, ha, hf, hv], ?_, ?_, ?_⟩
      · intro msg
        simp [MakeImmutableStrings, evalHook, he, ha, hf, hv]
      · intro m f rs id
        simp [MakeImmutableStrings, evalHook, he, ha, hf, hv]
      · intro err rec hrec
        have hr : rec0 = rec := by injection hrec
        subst hr
        simp [MakeImmutableStrings, evalHook, he, ha, hf, hv]
  · refine ⟨by simp [MakeImmutableStrings, evalHook, he, ha, hf, hv], ?_, ?_, ?_⟩
    · intro msg
      simp [MakeImmutableStrings, evalHook, he, ha, hf, hv, violationError]
    · intro m f rs id
      simp [MakeImmutableStrings, evalHook, he, ha, hf, hv]
    · intro err rec hrec
      have hr : rec0 = rec := by injection hrec
      subst hr
      simp [MakeImmutableStrings, evalHook, he, ha, hf, hv, violationError]

/-- C10 witness: instantiating the agreement on the failing-fetch event
recovers the variadic version's fetch error from the strings-only one. -/
theorem claim10_witness :
    (MakeImmutable (["name"].map Arg.str) none eventFetchFail).result
        = some (.badRequestErr (fetchErrMsgVariadic pendRec1.id pendRec1.collectionName)
            (.base "db down")) :=
  ((claim10_variadic_strings_agree ["name"] none eventFetchFail).2.2.2
      (.base "db down") pendRec1 rfl).mp rfl

end PbImmutable
